import Mathlib

/-!
Shallow embedding of the backup-container core of the `storage-rs` repository
(crates/store: `version.rs`, `header.rs`, `meta.rs`, `backup.rs`).

Modelling conventions:
* Byte buffers are `List Nat` (each entry one byte; bounds appear explicitly
  where the source's machine arithmetic makes them matter).
* `u32` arithmetic is `Nat` arithmetic with explicit `% 2^32` / saturation at
  `2^32 - 1`; `usize` fields are `Nat` with `< 2^64` hypotheses where the
  byte-exact header layout (bytemuck on a 64-bit little-endian target) needs
  them.
* Filesystem access is made explicit: the content and raw metadata a path
  would yield are passed in as a `FileInput` value.
* External serializers are parameters: `rmp_serde` is an encoder/decoder pair
  `enc : FileMeta → List Nat` / `dec : List Nat → Option FileMeta`, and brotli
  is a pair `compress : List Nat → List Nat` /
  `decompress : List Nat → Except String (List Nat)`; their round-trip laws are
  hypotheses where a claim needs them, and a concrete executable codec
  (`encMetaC` / `decMetaC`) instantiates them.
* A Rust `panic!` / failed `assert!` is a distinguished outcome
  (`POutcome.panicked` or, for the version counters, `Option.none`), kept
  apart from a returned `Err` (`POutcome.error`).
-/

namespace Storage

/-- Outcome of a fallible Rust function: normal return, returned error, or
panic (failed assertion). -/
inductive POutcome (α : Type) where
  | ok (a : α)
  | error (e : String)
  | panicked (mssg : String)
deriving DecidableEq, Repr

/-- Modulus of `u32` arithmetic. -/
def U32_MOD : Nat := 4294967296

/-- Largest `u32` value (`u32::MAX`). -/
def U32_MAX : Nat := 4294967295

/-- Modulus of `u64` / 64-bit `usize` arithmetic. -/
def U64_MOD : Nat := 18446744073709551616

namespace wrapping

/-- Model of `wrapping::FileVersion` from `version.rs`: a `u32` counter that
wraps on addition. The inner value is a `Nat`; faithful call sites keep it
below `U32_MOD`. -/
structure FileVersion where
  val : Nat
deriving DecidableEq, Repr

/-- Model of `wrapping::FileVersion::INVALID` (inner value zero). -/
def FileVersion.INVALID : FileVersion := ⟨0⟩

/-- Model of `wrapping::FileVersion::new` / `default`: value 1. -/
def FileVersion.new : FileVersion := ⟨1⟩

/-- Model of `wrapping::FileVersion::is_valid`: the value is non-zero. -/
def FileVersion.is_valid (v : FileVersion) : Bool := v.val ≠ 0

/-- Model of `impl AddAssign<u32> for wrapping::FileVersion`: wrapping add,
then coerce a raw 0 to 1. -/
def FileVersion.addAssignU32 (v : FileVersion) (rhs : Nat) : FileVersion :=
  let wrapped := (v.val + rhs) % U32_MOD
  if wrapped = 0 then ⟨1⟩ else ⟨wrapped⟩

/-- Model of `wrapping::FileVersion::increment`: asserts validity (a failed
assert is `none`), then `*self += 1`. -/
def FileVersion.increment (v : FileVersion) : Option FileVersion :=
  if v.is_valid then some (v.addAssignU32 1) else none

/-- Model of `wrapping::FileVersion::increment_n`: asserts validity, then
`*self += n`. -/
def FileVersion.increment_n (v : FileVersion) (n : Nat) : Option FileVersion :=
  if v.is_valid then some (v.addAssignU32 n) else none

end wrapping

namespace saturating

/-- Model of `saturating::FileVersion` from `version.rs`: a `u32` counter that
saturates at `u32::MAX` on addition. -/
structure FileVersion where
  val : Nat
deriving DecidableEq, Repr

/-- Model of `saturating::FileVersion::INVALID` (inner value zero). -/
def FileVersion.INVALID : FileVersion := ⟨0⟩

/-- Model of `saturating::FileVersion::new` / `default`: value 1. -/
def FileVersion.new : FileVersion := ⟨1⟩

/-- Model of `saturating::FileVersion::is_valid`: the value is non-zero. -/
def FileVersion.is_valid (v : FileVersion) : Bool := v.val ≠ 0

/-- Model of `impl AddAssign<u32> for saturating::FileVersion`: early return
on an invalid receiver, saturating add, then coerce a raw 0 to 1. -/
def FileVersion.addAssignU32 (v : FileVersion) (rhs : Nat) : FileVersion :=
  if ¬ v.is_valid then v
  else
    let value := min (v.val + rhs) U32_MAX
    if value = 0 then ⟨1⟩ else ⟨value⟩

/-- Model of `saturating::FileVersion::increment`: asserts validity (a failed
assert is `none`), then `*self += 1u32`. -/
def FileVersion.increment (v : FileVersion) : Option FileVersion :=
  if v.is_valid then some (v.addAssignU32 1) else none

/-- Model of `saturating::FileVersion::increment_n`: asserts validity, then
`*self += n`. -/
def FileVersion.increment_n (v : FileVersion) (n : Nat) : Option FileVersion :=
  if v.is_valid then some (v.addAssignU32 n) else none

end saturating

/-- The store crate's re-export `pub use SaturatingFileVersion as FileVersion`
(`lib.rs`): the version type used by `FileMeta` is the saturating variant. -/
abbrev FileVersion := saturating.FileVersion

/-- Byte width of `usize` on the modelled 64-bit target. -/
def USIZE_BYTES : Nat := 8

/-- Byte width of `FileHeader` (`std::mem::size_of::<FileHeader>()`: two
`usize` fields, no padding). -/
def HEADER_BYTES : Nat := 16

/-- Little-endian byte image of a `usize` value (8 bytes), as laid out in
memory on the modelled x86-64 target; values `≥ 2^64` are truncated exactly as
the machine representation would be. -/
def toLEBytes (n : Nat) : List Nat :=
  [n % 256, n / 256 % 256, n / 65536 % 256, n / 16777216 % 256,
   n / 4294967296 % 256, n / 1099511627776 % 256,
   n / 281474976710656 % 256, n / 72057594037927936 % 256]

/-- Value of a little-endian byte list. -/
def fromLEBytes (bs : List Nat) : Nat :=
  bs.foldr (fun b acc => b + 256 * acc) 0

/-- Model of `FileHeader` from `header.rs`: sizes of the metadata block and
the payload block (`usize` fields, modelled as `Nat`). -/
structure FileHeader where
  meta_size : Nat
  file_size : Nat
deriving DecidableEq, Repr

/-- Model of `FileHeader::new`. -/
def FileHeader.new (meta_size file_size : Nat) : FileHeader :=
  ⟨meta_size, file_size⟩

/-- Model of `bytemuck::bytes_of(&header)`: the 16-byte memory image,
`meta_size` first, little-endian fields. -/
def FileHeader.bytesOf (h : FileHeader) : List Nat :=
  toLEBytes h.meta_size ++ toLEBytes h.file_size

/-- Model of `bytemuck::checked::try_pod_read_unaligned::<FileHeader>` on a
16-byte slice: reinterpret the bytes as the two `usize` fields (always
succeeds for a `Pod` type of the exact size). -/
def podReadHeader (bs : List Nat) : FileHeader :=
  ⟨fromLEBytes (bs.take USIZE_BYTES), fromLEBytes ((bs.drop USIZE_BYTES).take USIZE_BYTES)⟩

/-- Model of `FileHeader::try_from_bytes_exact`: `try_pod_read_unaligned`
fails unless the slice length is exactly `size_of::<FileHeader>()`. -/
def FileHeader.try_from_bytes_exact (bs : List Nat) : Except String FileHeader :=
  if bs.length = HEADER_BYTES then .ok (podReadHeader bs)
  else .error "SizeMismatch"

/-- Model of `try_pull_pod::<FileHeader>` from `header.rs`: split the slice at
the header width and reinterpret the head, or fail when too short. -/
def try_pull_pod (bs : List Nat) : Except String (FileHeader × List Nat) :=
  if HEADER_BYTES ≤ bs.length then
    .ok (podReadHeader (bs.take HEADER_BYTES), bs.drop HEADER_BYTES)
  else .error "oopsy poopsy"

/-- Model of `FileHeader::try_from_bytes`: delegates to `try_pull_pod`. -/
def FileHeader.try_from_bytes (bs : List Nat) : Except String (FileHeader × List Nat) :=
  try_pull_pod bs

/-- Model of `FileKind` from `meta.rs`. -/
inductive FileKind where
  | File
  | Dir
  | Symlink
  | Unknown
deriving DecidableEq, Repr

/-- Model of the part of `std::fs::Metadata` the store reads: the three
optional timestamps (seconds since epoch, `Timestamp` is a `u64`), the byte
length, and the file-type predicates. -/
structure Metadata where
  created : Option Nat
  modified : Option Nat
  accessed : Option Nat
  len : Nat
  is_file : Bool
  is_dir : Bool
  is_symlink : Bool
deriving DecidableEq, Repr

/-- Model of `impl From<&Metadata> for FileKind` from `meta.rs`. -/
def FileKind.from_metadata (m : Metadata) : FileKind :=
  if m.is_file then .File
  else if m.is_dir then .Dir
  else if m.is_symlink then .Symlink
  else .Unknown

/-- Model of `FsMetadata` from `meta.rs`: the serializable filesystem
snapshot. -/
structure FsMetadata where
  created : Option Nat
  modified : Option Nat
  accessed : Option Nat
  size : Nat
  file_type : FileKind
deriving DecidableEq, Repr

/-- Model of `FsMetadata::from_metadata`. -/
def FsMetadata.from_metadata (m : Metadata) : FsMetadata :=
  ⟨m.created, m.modified, m.accessed, m.len, FileKind.from_metadata m⟩

/-- Model of `FileMeta` from `meta.rs`. Paths are abstract byte lists. -/
structure FileMeta where
  version : FileVersion
  backup_created : Nat
  path : List Nat
  fs_meta : FsMetadata
deriving DecidableEq, Repr

/-- Model of `FileMeta::new_from_metadata` (always `Ok` in the source). -/
def FileMeta.new_from_metadata (path : List Nat) (created : Nat)
    (metadata : Metadata) (version : FileVersion) : FileMeta :=
  ⟨version, created, path, FsMetadata.from_metadata metadata⟩

/-- Model of `FileMeta::update_from_metadata`: overwrite only `fs_meta`. -/
def FileMeta.update_from_metadata (m : FileMeta) (metadata : Metadata) : FileMeta :=
  { m with fs_meta := FsMetadata.from_metadata metadata }

/-- Model of `FileMeta::bump_version`: increment the version counter in
place; `none` models the panic of an invalid counter. -/
def FileMeta.bump_version (m : FileMeta) : Option FileMeta :=
  (m.version.increment).map fun v => { m with version := v }

/-- The bytes and raw metadata that the filesystem would yield for a path:
the explicit input of the file-reading operations. -/
structure FileInput where
  metadata : Metadata
  bytes : List Nat
deriving DecidableEq, Repr

/-- Model of `BackupFile::extract_file_info`: read the metadata, read the
whole file, and assert that the bytes read match the metadata's length (a
mismatch panics). -/
def extract_file_info (input : FileInput) : POutcome (Metadata × List Nat) :=
  if input.bytes.length = input.metadata.len then .ok (input.metadata, input.bytes)
  else .panicked "bytes_read should be the same as file_size"

/-- Model of `BackupFile` from `backup.rs`. -/
structure BackupFile where
  header : FileHeader
  meta : FileMeta
  file_bytes : List Nat
deriving DecidableEq, Repr

/-- Model of `CompressedBackupFile`: the opaque compressed byte buffer. -/
structure CompressedBackupFile where
  bytes : List Nat
deriving DecidableEq, Repr

/-- Model of `BackupFile::create_new`. `enc` stands for `rmp_serde::to_vec`,
`now` for `Timestamp::now()`, and `input` for what the filesystem yields at
`path`. -/
def BackupFile.create_new (enc : FileMeta → List Nat) (now : Nat)
    (path : List Nat) (input : FileInput) : POutcome BackupFile :=
  match extract_file_info input with
  | .error e => .error e
  | .panicked m => .panicked m
  | .ok (raw_meta, file_bytes) =>
    let meta := FileMeta.new_from_metadata path now raw_meta saturating.FileVersion.new
    let meta_size := (enc meta).length
    let header := FileHeader.new meta_size file_bytes.length
    .ok ⟨header, meta, file_bytes⟩

/-- Model of `BackupFile::update_backup`: re-extract the file info for the
stored path, refresh the filesystem snapshot, bump the version, and recompute
the header and payload. -/
def BackupFile.update_backup (enc : FileMeta → List Nat) (input : FileInput)
    (bf : BackupFile) : POutcome BackupFile :=
  match extract_file_info input with
  | .error e => .error e
  | .panicked m => .panicked m
  | .ok (raw_meta, file_bytes) =>
    match (bf.meta.update_from_metadata raw_meta).bump_version with
    | none => .panicked "cannot increment an invalid version!"
    | some meta =>
      let meta_size := (enc meta).length
      .ok ⟨FileHeader.new meta_size file_bytes.length, meta, file_bytes⟩

/-- Flattened (pre-compression) byte stream built inside
`BackupFile::try_compress`: header bytes, then metadata bytes, then payload
bytes. -/
def BackupFile.flattenBytes (enc : FileMeta → List Nat) (bf : BackupFile) : List Nat :=
  bf.header.bytesOf ++ (enc bf.meta ++ bf.file_bytes)

/-- Model of `BackupFile::try_compress`. `compress` stands for the brotli
`CompressorWriter`; the four `assert_eq!` checks of the source are modelled
as `panicked` branches, in source order. -/
def BackupFile.try_compress (enc : FileMeta → List Nat)
    (compress : List Nat → List Nat) (bf : BackupFile) : POutcome CompressedBackupFile :=
  if bf.header.bytesOf.length = HEADER_BYTES then
    if (enc bf.meta).length = bf.header.meta_size then
      if bf.file_bytes.length = bf.header.file_size then
        let total_size := HEADER_BYTES + bf.file_bytes.length + (enc bf.meta).length
        if (bf.flattenBytes enc).length = total_size then
          .ok ⟨compress (bf.flattenBytes enc)⟩
        else .panicked "bytes.len() should be the expected/calculated total size"
      else .panicked "meta bytes should be the size indicated by the header"
    else .panicked "meta bytes should be the size indicated by the header"
  else .panicked "header_bytes should be the same size as FileHeader"

/-- Continuation of `CompressedBackupFile::try_decompress` once the header is
parsed: split the rest at `meta_size` (`split_at` panics when out of bounds),
check both segment lengths against the header (`assert_eq!` panics), and
decode the metadata block. `dec` stands for `rmp_serde::from_slice`. -/
def parseAfterHeader (dec : List Nat → Option FileMeta)
    (header : FileHeader) (rest : List Nat) : POutcome BackupFile :=
  if header.meta_size ≤ rest.length then
    if (rest.take header.meta_size).length = header.meta_size then
      if (rest.drop header.meta_size).length = header.file_size then
        match dec (rest.take header.meta_size) with
        | none => .error "rmp_serde decode"
        | some meta => .ok ⟨header, meta, rest.drop header.meta_size⟩
      else .panicked "file bytes should be the size indicated by the header"
    else .panicked "meta bytes should be the size indicated by the header"
  else .panicked "split_at mid out of bounds"

/-- Body of `CompressedBackupFile::try_decompress` after the brotli stage:
parse the header prefix of the decompressed bytes, then continue with
`parseAfterHeader`. -/
def parseContainer (dec : List Nat → Option FileMeta)
    (decompressed : List Nat) : POutcome BackupFile :=
  match FileHeader.try_from_bytes decompressed with
  | .error e => .error e
  | .ok (header, rest) => parseAfterHeader dec header rest

/-- Model of `CompressedBackupFile::try_decompress`: brotli decompression
(`decompress`, which may fail with an I/O-style error) followed by
`parseContainer`. -/
def CompressedBackupFile.try_decompress
    (decompress : List Nat → Except String (List Nat))
    (dec : List Nat → Option FileMeta) (c : CompressedBackupFile) : POutcome BackupFile :=
  match decompress c.bytes with
  | .error e => .error e
  | .ok decompressed => parseContainer dec decompressed

/-- Continuation of `extract_header_and_meta` once the header is parsed:
`read_exact` the declared metadata block from the remaining stream (an I/O
error when fewer bytes are available) and decode it. -/
def extractAfterHeader (dec : List Nat → Option FileMeta)
    (header : FileHeader) (rest : List Nat) : Except String (FileHeader × FileMeta) :=
  if header.meta_size ≤ rest.length then
    match dec (rest.take header.meta_size) with
    | none => .error "rmp_serde decode"
    | some meta => .ok (header, meta)
  else .error "read_exact: unexpected eof"

/-- Model of `extract_header_and_meta` from `backup.rs`: `read_exact` the
header width (an I/O error when the file is shorter), parse it with
`try_from_bytes_exact`, then read and decode the metadata block with
`extractAfterHeader`. The payload bytes are never read. -/
def extract_header_and_meta (dec : List Nat → Option FileMeta)
    (bytes : List Nat) : Except String (FileHeader × FileMeta) :=
  if HEADER_BYTES ≤ bytes.length then
    match FileHeader.try_from_bytes_exact (bytes.take HEADER_BYTES) with
    | .error e => .error e
    | .ok header => extractAfterHeader dec header (bytes.drop HEADER_BYTES)
  else .error "read_exact: unexpected eof"

/-- Model of `BackupInfo` from `backup.rs`. -/
structure BackupInfo where
  header : FileHeader
  meta : FileMeta
  backup_path : List Nat
deriving DecidableEq, Repr

/-- Model of `BackupManager::collect_backup_info`'s directory loop: each
directory entry is a pair of its path and the bytes of the file stored there;
the first failing entry aborts the scan with its error. -/
def collect_backup_info (dec : List Nat → Option FileMeta) :
    List (List Nat × List Nat) → Except String (List BackupInfo)
  | [] => .ok []
  | entry :: entries =>
    match extract_header_and_meta dec entry.2 with
    | .error e => .error e
    | .ok (header, meta) =>
      match collect_backup_info dec entries with
      | .error e => .error e
      | .ok infos => .ok (⟨header, meta, entry.1⟩ :: infos)

/-- Model of `BackupManager` (the `config` field is dropped: only the index
matters to the claims). -/
structure BackupManager where
  file_info : List BackupInfo
deriving DecidableEq, Repr

/-- Model of `BackupManager::new`: scan the store directory and build the
index. -/
def BackupManager.new (dec : List Nat → Option FileMeta)
    (entries : List (List Nat × List Nat)) : Except String BackupManager :=
  match collect_backup_info dec entries with
  | .error e => .error e
  | .ok infos => .ok ⟨infos⟩

/-! Concrete executable stand-in for the external `rmp_serde` codec: an
injective flat encoding of `FileMeta` with a verified decoder, used to
instantiate the `enc` / `dec` parameters in witnesses. -/

/-- Flat encoding of an optional number: tag byte then payload. -/
def encodeOption : Option Nat → List Nat
  | none => [0]
  | some n => [1, n]

/-- Numeric tag of a `FileKind`. -/
def kindTag : FileKind → Nat
  | .File => 0
  | .Dir => 1
  | .Symlink => 2
  | .Unknown => 3

/-- Concrete encoder for `FileMeta` (stand-in for `rmp_serde::to_vec`). -/
def encMetaC (m : FileMeta) : List Nat :=
  [m.version.val, m.backup_created, m.path.length] ++ m.path
  ++ encodeOption m.fs_meta.created ++ encodeOption m.fs_meta.modified
  ++ encodeOption m.fs_meta.accessed ++ [m.fs_meta.size, kindTag m.fs_meta.file_type]

/-- Consume one number from the front of a byte list. -/
def readNat : List Nat → Option (Nat × List Nat)
  | [] => none
  | b :: rest => some (b, rest)

/-- Consume a length-prefixed byte sequence. -/
def readSeq : List Nat → Option (List Nat × List Nat)
  | [] => none
  | n :: rest => if n ≤ rest.length then some (rest.take n, rest.drop n) else none

/-- Consume an optional number (tag byte then payload). -/
def readOpt : List Nat → Option (Option Nat × List Nat)
  | 0 :: rest => some (none, rest)
  | 1 :: b :: rest => some (some b, rest)
  | _ => none

/-- Consume a `FileKind` tag. -/
def readKind : List Nat → Option (FileKind × List Nat)
  | 0 :: rest => some (.File, rest)
  | 1 :: rest => some (.Dir, rest)
  | 2 :: rest => some (.Symlink, rest)
  | 3 :: rest => some (.Unknown, rest)
  | _ => none

/-- Concrete decoder for `FileMeta` (stand-in for `rmp_serde::from_slice`). -/
def decMetaC (bs : List Nat) : Option FileMeta := do
  let (v, bs) ← readNat bs
  let (created, bs) ← readNat bs
  let (path, bs) ← readSeq bs
  let (fsCreated, bs) ← readOpt bs
  let (fsModified, bs) ← readOpt bs
  let (fsAccessed, bs) ← readOpt bs
  let (size, bs) ← readNat bs
  let (kind, _) ← readKind bs
  pure ⟨⟨v⟩, created, path, ⟨fsCreated, fsModified, fsAccessed, size, kind⟩⟩

/-- Identity stand-in for the brotli compressor in witnesses (the claims only
need that compress/decompress are mutually inverse). -/
def idCompress (bs : List Nat) : List Nat := bs

/-- Identity stand-in for the brotli decompressor in witnesses. -/
def idDecompress (bs : List Nat) : Except String (List Nat) := .ok bs

/-- Concrete file input (3-byte file, metadata length 3) used to exercise the
executable model in witnesses. -/
def sampleInput : FileInput := ⟨⟨none, none, none, 3, true, false, false⟩, [1, 2, 3]⟩

/-- The `FileMeta` that `create_new` builds from `sampleInput` at time 100 for
path `[7]`. -/
def sampleMeta : FileMeta := ⟨⟨1⟩, 100, [7], ⟨none, none, none, 3, .File⟩⟩

/-- The `BackupFile` that `create_new encMetaC 100 [7] sampleInput` yields
(`encMetaC sampleMeta` has length 9). -/
def sampleBackup : BackupFile := ⟨⟨9, 3⟩, sampleMeta, [1, 2, 3]⟩

/-- The `BackupFile` after one `update_backup` of `sampleBackup` against
`sampleInput` (version bumped to 2). -/
def sampleBackup2 : BackupFile :=
  ⟨⟨9, 3⟩, ⟨⟨2⟩, 100, [7], ⟨none, none, none, 3, .File⟩⟩, [1, 2, 3]⟩

/-- A compressed container whose decompressed bytes are exactly a header
declaring a 5-byte metadata block and a 5-byte payload, followed by nothing:
truncated content, used with the identity decompressor. -/
def truncatedContainer : CompressedBackupFile := ⟨(FileHeader.new 5 5).bytesOf⟩

/-- On-disk bytes of a well-formed store entry holding `sampleMeta` and the
3-byte payload, used to exercise the directory scan. -/
def sampleContainerBytes : List Nat :=
  (FileHeader.new 9 3).bytesOf ++ (encMetaC sampleMeta ++ [1, 2, 3])

/-- The index entry the scan builds for `sampleContainerBytes` stored at path
`[3]`. -/
def sampleInfo : BackupInfo := ⟨FileHeader.new 9 3, sampleMeta, [3]⟩

/-! Theorems. -/

theorem toLEBytes_length (n : Nat) : (toLEBytes n).length = 8 := rfl

theorem fromLEBytes_toLEBytes (n : Nat) (h : n < U64_MOD) :
    fromLEBytes (toLEBytes n) = n := by
  simp only [toLEBytes, fromLEBytes, List.foldr]
  simp only [U64_MOD] at h
  omega

theorem FileHeader.bytesOf_length (h : FileHeader) : h.bytesOf.length = 16 := by
  simp [FileHeader.bytesOf, toLEBytes]

theorem podReadHeader_bytesOf (h : FileHeader)
    (hm : h.meta_size < U64_MOD) (hf : h.file_size < U64_MOD) :
    podReadHeader h.bytesOf = h := by
  cases h with
  | mk ms fs =>
    simp only [U64_MOD] at hm hf
    simp only [podReadHeader, FileHeader.bytesOf, toLEBytes, USIZE_BYTES, fromLEBytes,
      List.cons_append, List.nil_append, List.take, List.drop, List.foldr,
      FileHeader.mk.injEq]
    constructor <;> omega

theorem readNat_cons (b : Nat) (rest : List Nat) :
    readNat (b :: rest) = some (b, rest) := rfl

theorem readSeq_encode (l rest : List Nat) :
    readSeq (l.length :: (l ++ rest)) = some (l, rest) := by
  simp [readSeq, List.take_left, List.drop_left]

theorem readOpt_encode (o : Option Nat) (rest : List Nat) :
    readOpt (encodeOption o ++ rest) = some (o, rest) := by
  cases o <;> rfl

theorem readKind_encode (k : FileKind) (rest : List Nat) :
    readKind (kindTag k :: rest) = some (k, rest) := by
  cases k <;> rfl

theorem decMetaC_encMetaC (m : FileMeta) : decMetaC (encMetaC m) = some m := by
  rcases m with ⟨⟨v⟩, created, path, ⟨fsCreated, fsModified, fsAccessed, size, kind⟩⟩
  simp only [encMetaC, List.cons_append, List.nil_append, List.append_assoc]
  simp [decMetaC, readNat_cons, readSeq_encode, readOpt_encode, readKind_encode]

theorem create_new_ok_inv (enc : FileMeta → List Nat) (now : Nat) (path : List Nat)
    (input : FileInput) (bf : BackupFile)
    (h : BackupFile.create_new enc now path input = .ok bf) :
    input.bytes.length = input.metadata.len
    ∧ bf = ⟨⟨(enc (FileMeta.new_from_metadata path now input.metadata
                saturating.FileVersion.new)).length, input.bytes.length⟩,
            FileMeta.new_from_metadata path now input.metadata saturating.FileVersion.new,
            input.bytes⟩ := by
  by_cases hlen : input.bytes.length = input.metadata.len
  · unfold BackupFile.create_new extract_file_info at h
    rw [if_pos hlen] at h
    simp only [POutcome.ok.injEq] at h
    exact ⟨hlen, h.symm⟩
  · unfold BackupFile.create_new extract_file_info at h
    rw [if_neg hlen] at h
    simp at h

theorem saturating_increment_eq (v : Nat) (hv : v ≠ 0) (hlt : v < U32_MAX) :
    saturating.FileVersion.increment ⟨v⟩ = some ⟨v + 1⟩ := by
  have h1 : min (v + 1) U32_MAX = v + 1 := by
    simp only [U32_MAX] at hlt ⊢
    omega
  simp [saturating.FileVersion.increment, saturating.FileVersion.is_valid,
    saturating.FileVersion.addAssignU32, hv, h1]

theorem update_backup_ok_inv (enc : FileMeta → List Nat) (input : FileInput)
    (bf bf' : BackupFile) (h : BackupFile.update_backup enc input bf = .ok bf') :
    ∃ v', bf.meta.version.increment = some v'
    ∧ input.bytes.length = input.metadata.len
    ∧ bf' = ⟨⟨(enc ⟨v', bf.meta.backup_created, bf.meta.path,
                FsMetadata.from_metadata input.metadata⟩).length, input.bytes.length⟩,
             ⟨v', bf.meta.backup_created, bf.meta.path,
                FsMetadata.from_metadata input.metadata⟩, input.bytes⟩ := by
  by_cases hlen : input.bytes.length = input.metadata.len
  · unfold BackupFile.update_backup extract_file_info at h
    rw [if_pos hlen] at h
    simp only [FileMeta.bump_version, FileMeta.update_from_metadata] at h
    cases hinc : bf.meta.version.increment with
    | none => rw [hinc] at h; exact POutcome.noConfusion h
    | some v' =>
      rw [hinc] at h
      exact ⟨v', rfl, hlen, (POutcome.ok.inj h).symm⟩
  · unfold BackupFile.update_backup extract_file_info at h
    rw [if_neg hlen] at h
    simp at h

theorem try_from_bytes_bytesOf (h : FileHeader) (tail : List Nat)
    (hm : h.meta_size < U64_MOD) (hf : h.file_size < U64_MOD) :
    FileHeader.try_from_bytes (h.bytesOf ++ tail) = .ok (h, tail) := by
  have hlen : h.bytesOf.length = 16 := h.bytesOf_length
  have h16 : HEADER_BYTES = h.bytesOf.length := by rw [hlen]; rfl
  simp only [FileHeader.try_from_bytes, try_pull_pod, h16]
  rw [if_pos (by simp), List.take_append_of_le_length (le_refl _),
    List.drop_append_of_le_length (le_refl _), List.take_length, List.drop_length,
    List.nil_append, podReadHeader_bytesOf h hm hf]

theorem create_new_header_sizes (enc : FileMeta → List Nat) (now : Nat)
    (path : List Nat) (input : FileInput) (bf : BackupFile)
    (h : BackupFile.create_new enc now path input = .ok bf) :
    (enc bf.meta).length = bf.header.meta_size
    ∧ bf.file_bytes.length = bf.header.file_size := by
  obtain ⟨-, hbf⟩ := create_new_ok_inv enc now path input bf h
  rw [hbf]
  exact ⟨rfl, rfl⟩

theorem update_backup_header_sizes (enc : FileMeta → List Nat) (input : FileInput)
    (bf₀ bf : BackupFile) (h : BackupFile.update_backup enc input bf₀ = .ok bf) :
    (enc bf.meta).length = bf.header.meta_size
    ∧ bf.file_bytes.length = bf.header.file_size := by
  obtain ⟨v', -, -, hbf⟩ := update_backup_ok_inv enc input bf₀ bf h
  rw [hbf]
  exact ⟨rfl, rfl⟩

theorem try_compress_ok (enc : FileMeta → List Nat) (compress : List Nat → List Nat)
    (bf : BackupFile) (hmeta : (enc bf.meta).length = bf.header.meta_size)
    (hfile : bf.file_bytes.length = bf.header.file_size) :
    BackupFile.try_compress enc compress bf = .ok ⟨compress (bf.flattenBytes enc)⟩ := by
  have hflat : (bf.flattenBytes enc).length
      = HEADER_BYTES + (enc bf.meta).length + bf.file_bytes.length := by
    simp only [BackupFile.flattenBytes, List.length_append, bf.header.bytesOf_length,
      HEADER_BYTES]
    omega
  unfold BackupFile.try_compress
  rw [if_pos (by rw [bf.header.bytesOf_length]; rfl), if_pos hmeta, if_pos hfile,
    if_pos (by rw [hflat]; omega)]

theorem parseContainer_flatten (enc : FileMeta → List Nat)
    (dec : List Nat → Option FileMeta) (bf : BackupFile)
    (hdec : ∀ m, dec (enc m) = some m)
    (hmeta : (enc bf.meta).length = bf.header.meta_size)
    (hfile : bf.file_bytes.length = bf.header.file_size)
    (hm : bf.header.meta_size < U64_MOD) (hf : bf.header.file_size < U64_MOD) :
    parseContainer dec (bf.flattenBytes enc) = .ok bf := by
  unfold parseContainer BackupFile.flattenBytes
  rw [try_from_bytes_bytesOf bf.header (enc bf.meta ++ bf.file_bytes) hm hf]
  simp only []
  unfold parseAfterHeader
  rw [← hmeta, ← hfile]
  rw [if_pos (by simp), List.take_left, List.drop_left, if_pos rfl, if_pos rfl, hdec bf.meta]

/-- C5: for every BackupFile whose version is valid and below the maximum
representable value, each successful update_backup call increases the
metadata's version by exactly 1; at the maximum value, the wrap-policy counter
wraps to 1 (never 0) and the saturate-policy counter stays at the maximum. -/
theorem C5_update_increments_version (enc : FileMeta → List Nat) (input : FileInput)
    (bf bf' : BackupFile) (hup : BackupFile.update_backup enc input bf = .ok bf')
    (hvalid : bf.meta.version.val ≠ 0) (hlt : bf.meta.version.val < U32_MAX) :
    bf'.meta.version.val = bf.meta.version.val + 1
    ∧ wrapping.FileVersion.increment ⟨U32_MAX⟩ = some ⟨1⟩
    ∧ saturating.FileVersion.increment ⟨U32_MAX⟩ = some ⟨U32_MAX⟩ := by
  refine ⟨?_, by rfl, by rfl⟩
  obtain ⟨v', hinc, -, hbf'⟩ := update_backup_ok_inv enc input bf bf' hup
  have : bf.meta.version = ⟨bf.meta.version.val⟩ := rfl
  rw [this, saturating_increment_eq _ hvalid hlt] at hinc
  cases hinc
  rw [hbf']

/-- C6: for every valid (non-zero) counter of either variant and every
increment amount, the resulting counter value is never 0: in the wrapping
variant a raw result of exactly 0 is coerced to 1, and in the saturating
variant overflow holds the value at the representable maximum, never routing
through zero. -/
theorem C6_arithmetic_never_zero (v n : Nat) (hv : v ≠ 0) :
    (wrapping.FileVersion.addAssignU32 ⟨v⟩ n).val ≠ 0
    ∧ ((v + n) % U32_MOD = 0 → (wrapping.FileVersion.addAssignU32 ⟨v⟩ n).val = 1)
    ∧ (saturating.FileVersion.addAssignU32 ⟨v⟩ n).val ≠ 0
    ∧ (U32_MAX ≤ v + n → (saturating.FileVersion.addAssignU32 ⟨v⟩ n).val = U32_MAX) := by
  refine ⟨?_, ?_, ?_, ?_⟩
  · simp only [wrapping.FileVersion.addAssignU32]
    split <;> simp_all
  · intro h0
    simp [wrapping.FileVersion.addAssignU32, h0]
  · simp only [saturating.FileVersion.addAssignU32, saturating.FileVersion.is_valid, hv]
    simp only [ne_eq, decide_not, Bool.not_eq_true, decide_eq_false_iff_not,
      Decidable.not_not, hv, if_false]
    split <;> simp_all [U32_MAX]
  · intro hmax
    have h1 : min (v + n) U32_MAX = U32_MAX := by omega
    have h2 : U32_MAX ≠ 0 := by simp [U32_MAX]
    simp [saturating.FileVersion.addAssignU32, saturating.FileVersion.is_valid, hv, h1, h2]

/-- C7: calling increment (or increment_n) on a counter whose value is zero,
in either variant, fails/aborts (panic, modelled as `none`) rather than
silently producing 1 or any other value. -/
theorem C7_invalid_increment_panics :
    (∀ v : wrapping.FileVersion, v.val = 0 →
       v.increment = none ∧ ∀ n, v.increment_n n = none)
    ∧ (∀ v : saturating.FileVersion, v.val = 0 →
       v.increment = none ∧ ∀ n, v.increment_n n = none) := by
  constructor <;> rintro ⟨x⟩ hx <;> cases hx <;> exact ⟨rfl, fun n => rfl⟩

/-- Witness for C7 at the concrete invalid counters. -/
theorem C7_invalid_increment_panics_witness :
    wrapping.FileVersion.increment wrapping.FileVersion.INVALID = none
    ∧ saturating.FileVersion.increment_n saturating.FileVersion.INVALID 5 = none :=
  ⟨(C7_invalid_increment_panics.1 wrapping.FileVersion.INVALID rfl).1,
   (C7_invalid_increment_panics.2 saturating.FileVersion.INVALID rfl).2 5⟩

/-- C8: FileHeader::try_from_bytes, applied to any byte slice of length at
least the header width, consumes exactly the header width from the front and
returns the parsed header together with precisely the remaining bytes;
applied to any shorter slice it returns an error rather than a header. -/
theorem C8_try_from_bytes_consumes_header (bs : List Nat) :
    (HEADER_BYTES ≤ bs.length →
       FileHeader.try_from_bytes bs
         = .ok (podReadHeader (bs.take HEADER_BYTES), bs.drop HEADER_BYTES)
       ∧ bs.take HEADER_BYTES ++ bs.drop HEADER_BYTES = bs
       ∧ (bs.take HEADER_BYTES).length = HEADER_BYTES)
    ∧ (bs.length < HEADER_BYTES →
       FileHeader.try_from_bytes bs = .error "oopsy poopsy")
    ∧ (∀ (h : FileHeader) (tail : List Nat),
       h.meta_size < U64_MOD → h.file_size < U64_MOD →
       FileHeader.try_from_bytes (h.bytesOf ++ tail) = .ok (h, tail)) := by
  refine ⟨fun hge => ⟨?_, List.take_append_drop _ _, ?_⟩, fun hlt => ?_, ?_⟩
  · simp [FileHeader.try_from_bytes, try_pull_pod, hge]
  · rw [List.length_take]
    omega
  · simp [FileHeader.try_from_bytes, try_pull_pod]
    omega
  · exact fun h tail hm hf => try_from_bytes_bytesOf h tail hm hf

/-- Witness for C5 at the concrete sample backup (version 1 → 2). -/
theorem C5_update_increments_version_witness :
    sampleBackup2.meta.version.val = sampleBackup.meta.version.val + 1
    ∧ wrapping.FileVersion.increment ⟨U32_MAX⟩ = some ⟨1⟩
    ∧ saturating.FileVersion.increment ⟨U32_MAX⟩ = some ⟨U32_MAX⟩ :=
  C5_update_increments_version encMetaC sampleInput sampleBackup sampleBackup2
    (by rfl) (by decide) (by decide)

/-- Witness for C6 at the concrete counter value 1 and increment amount 0. -/
theorem C6_arithmetic_never_zero_witness :
    (wrapping.FileVersion.addAssignU32 ⟨1⟩ 0).val ≠ 0
    ∧ (saturating.FileVersion.addAssignU32 ⟨1⟩ 0).val ≠ 0 :=
  ⟨(C6_arithmetic_never_zero 1 0 (by decide)).1,
   (C6_arithmetic_never_zero 1 0 (by decide)).2.2.1⟩

/-- C2: for every BackupFile produced by create_new or update_backup,
header.meta_size equals the exact byte length of the rmp_serde encoding of
the FileMeta it holds, and header.file_size equals the exact byte length of
the stored payload bytes. -/
theorem C2_header_size_consistency (enc : FileMeta → List Nat) :
    (∀ now path input bf, BackupFile.create_new enc now path input = .ok bf →
       bf.header.meta_size = (enc bf.meta).length
       ∧ bf.header.file_size = bf.file_bytes.length)
    ∧ (∀ input bf₀ bf, BackupFile.update_backup enc input bf₀ = .ok bf →
       bf.header.meta_size = (enc bf.meta).length
       ∧ bf.header.file_size = bf.file_bytes.length) := by
  constructor
  · intro now path input bf h
    obtain ⟨h1, h2⟩ := create_new_header_sizes enc now path input bf h
    exact ⟨h1.symm, h2.symm⟩
  · intro input bf₀ bf h
    obtain ⟨h1, h2⟩ := update_backup_header_sizes enc input bf₀ bf h
    exact ⟨h1.symm, h2.symm⟩

/-- Witness for C2 at the concrete sample create and update. -/
theorem C2_header_size_consistency_witness :
    sampleBackup.header.meta_size = (encMetaC sampleBackup.meta).length
    ∧ sampleBackup2.header.file_size = sampleBackup2.file_bytes.length :=
  ⟨((C2_header_size_consistency encMetaC).1 100 [7] sampleInput sampleBackup (by rfl)).1,
   ((C2_header_size_consistency encMetaC).2 sampleInput sampleBackup sampleBackup2
      (by rfl)).2⟩

/-- C4: try_compress produces, before compression, exactly the concatenation
header-bytes then metadata-bytes then payload-bytes in that order (the
fixed-width header is the first bytes of every container), with the total
length equal to the sum of the three segment lengths. -/
theorem C4_compress_concatenation (enc : FileMeta → List Nat)
    (compress : List Nat → List Nat) (bf : BackupFile)
    (hmeta : (enc bf.meta).length = bf.header.meta_size)
    (hfile : bf.file_bytes.length = bf.header.file_size) :
    BackupFile.try_compress enc compress bf = .ok ⟨compress (bf.flattenBytes enc)⟩
    ∧ bf.flattenBytes enc = bf.header.bytesOf ++ (enc bf.meta ++ bf.file_bytes)
    ∧ (bf.flattenBytes enc).length
        = HEADER_BYTES + (enc bf.meta).length + bf.file_bytes.length := by
  refine ⟨try_compress_ok enc compress bf hmeta hfile, rfl, ?_⟩
  simp only [BackupFile.flattenBytes, List.length_append, bf.header.bytesOf_length,
    HEADER_BYTES]
  omega

/-- Witness for C4 at the concrete sample backup. -/
theorem C4_compress_concatenation_witness :
    BackupFile.try_compress encMetaC idCompress sampleBackup
      = .ok ⟨idCompress (sampleBackup.flattenBytes encMetaC)⟩
    ∧ (sampleBackup.flattenBytes encMetaC).length
        = HEADER_BYTES + (encMetaC sampleBackup.meta).length
            + sampleBackup.file_bytes.length :=
  ⟨(C4_compress_concatenation encMetaC idCompress sampleBackup (by rfl) (by rfl)).1,
   (C4_compress_concatenation encMetaC idCompress sampleBackup (by rfl) (by rfl)).2.2⟩

/-- C10: for every BackupFile, a successful update_backup call leaves the
metadata's backup-creation timestamp (backup_created) unchanged — it still
holds the time recorded at create_new, since update_backup never calls
set_created_now — and likewise leaves the stored path unchanged. -/
theorem C10_update_preserves_backup_created (enc : FileMeta → List Nat)
    (input : FileInput) (bf bf' : BackupFile)
    (hup : BackupFile.update_backup enc input bf = .ok bf') :
    bf'.meta.backup_created = bf.meta.backup_created
    ∧ bf'.meta.path = bf.meta.path := by
  obtain ⟨v', -, -, hbf⟩ := update_backup_ok_inv enc input bf bf' hup
  rw [hbf]
  exact ⟨rfl, rfl⟩

/-- Witness for C10 at the concrete sample update. -/
theorem C10_update_preserves_backup_created_witness :
    sampleBackup2.meta.backup_created = sampleBackup.meta.backup_created
    ∧ sampleBackup2.meta.path = sampleBackup.meta.path :=
  C10_update_preserves_backup_created encMetaC sampleInput sampleBackup sampleBackup2
    (by rfl)

/-- C1: for every file content and metadata, decompressing the result of
compressing a freshly built backup container
(CompressedBackupFile::try_decompress of BackupFile::try_compress of
BackupFile::create_new) yields a BackupFile whose file bytes are identical to
the original payload and whose metadata is equal to the original in all
fields, given that the serializer and the compressor round-trip. -/
theorem C1_compress_decompress_roundtrip
    (enc : FileMeta → List Nat) (dec : List Nat → Option FileMeta)
    (compress : List Nat → List Nat) (decompress : List Nat → Except String (List Nat))
    (hdec : ∀ m, dec (enc m) = some m)
    (hcd : ∀ bs, decompress (compress bs) = .ok bs)
    (now : Nat) (path : List Nat) (input : FileInput)
    (bf : BackupFile) (c : CompressedBackupFile)
    (hnew : BackupFile.create_new enc now path input = .ok bf)
    (hm : (enc bf.meta).length < U64_MOD) (hf : bf.file_bytes.length < U64_MOD)
    (hc : BackupFile.try_compress enc compress bf = .ok c) :
    CompressedBackupFile.try_decompress decompress dec c = .ok bf
    ∧ ∀ bf', CompressedBackupFile.try_decompress decompress dec c = .ok bf' →
        bf'.file_bytes = bf.file_bytes ∧ bf'.meta = bf.meta := by
  obtain ⟨hmeta, hfile⟩ := create_new_header_sizes enc now path input bf hnew
  have hm' : bf.header.meta_size < U64_MOD := hmeta ▸ hm
  have hf' : bf.header.file_size < U64_MOD := hfile ▸ hf
  have hcomp : c = ⟨compress (bf.flattenBytes enc)⟩ :=
    (POutcome.ok.inj ((try_compress_ok enc compress bf hmeta hfile).symm.trans hc)).symm
  have hmain : CompressedBackupFile.try_decompress decompress dec c = .ok bf := by
    rw [hcomp]
    unfold CompressedBackupFile.try_decompress
    rw [hcd (bf.flattenBytes enc)]
    exact parseContainer_flatten enc dec bf hdec hmeta hfile hm' hf'
  refine ⟨hmain, fun bf' h' => ?_⟩
  have : bf' = bf := POutcome.ok.inj (hmain.symm.trans h') |>.symm
  rw [this]
  exact ⟨rfl, rfl⟩

/-- Witness for C1 at the concrete sample input with the verified concrete
codec and the identity compressor. -/
theorem C1_compress_decompress_roundtrip_witness :
    CompressedBackupFile.try_decompress idDecompress decMetaC
      ⟨idCompress (sampleBackup.flattenBytes encMetaC)⟩ = .ok sampleBackup :=
  (C1_compress_decompress_roundtrip encMetaC decMetaC idCompress idDecompress
    decMetaC_encMetaC (fun bs => rfl) 100 [7] sampleInput sampleBackup
    ⟨idCompress (sampleBackup.flattenBytes encMetaC)⟩
    (by rfl) (by decide) (by decide) (by rfl)).1

theorem parseContainer_ge_header (dec : List Nat → Option FileMeta)
    (d : List Nat) (h16 : HEADER_BYTES ≤ d.length) :
    parseContainer dec d
      = parseAfterHeader dec (podReadHeader (d.take HEADER_BYTES)) (d.drop HEADER_BYTES) := by
  unfold parseContainer FileHeader.try_from_bytes try_pull_pod
  rw [if_pos h16]

theorem parseContainer_short (dec : List Nat → Option FileMeta)
    (d : List Nat) (h : d.length < HEADER_BYTES) :
    parseContainer dec d = .error "oopsy poopsy" := by
  unfold parseContainer FileHeader.try_from_bytes try_pull_pod
  rw [if_neg (by omega)]

/-- Counterexample to C3 as stated: for this corrupted container — whose
decompressed bytes are exactly a header declaring a 5-byte metadata block and
a 5-byte payload, followed by no further bytes — try_decompress aborts via a
failed assertion (the `split_at` out-of-bounds panic) instead of returning a
distinguishable error value. -/
theorem C3_truncated_panics_counterexample :
    CompressedBackupFile.try_decompress idDecompress decMetaC truncatedContainer
      = .panicked "split_at mid out of bounds" := by rfl

/-- C3 (amended): try_decompress never returns a silent partial result — any
successful return carries exactly the byte counts the header declares — and
decompressed bytes shorter than the header width yield a Format-style error;
but when the header parses and its declared sizes disagree with the actual
remaining byte count, try_decompress aborts via a failed assertion (panic)
rather than returning an error value. -/
theorem C3_corrupt_input_rejection (dec : List Nat → Option FileMeta)
    (d : List Nat) :
    (d.length < HEADER_BYTES → parseContainer dec d = .error "oopsy poopsy")
    ∧ (∀ bf, parseContainer dec d = .ok bf →
        d.length = HEADER_BYTES + bf.header.meta_size + bf.header.file_size
        ∧ bf.file_bytes.length = bf.header.file_size)
    ∧ (HEADER_BYTES ≤ d.length →
        d.length ≠ HEADER_BYTES + (podReadHeader (d.take HEADER_BYTES)).meta_size
            + (podReadHeader (d.take HEADER_BYTES)).file_size →
        ∃ mssg, parseContainer dec d = .panicked mssg) := by
  refine ⟨fun h => parseContainer_short dec d h, ?_, ?_⟩
  · intro bf h
    by_cases h16 : HEADER_BYTES ≤ d.length
    · rw [parseContainer_ge_header dec d h16] at h
      unfold parseAfterHeader at h
      by_cases hms : (podReadHeader (d.take HEADER_BYTES)).meta_size
          ≤ (d.drop HEADER_BYTES).length
      · rw [if_pos hms, if_pos (by rw [List.length_take]; omega)] at h
        by_cases hfs : ((d.drop HEADER_BYTES).drop
            (podReadHeader (d.take HEADER_BYTES)).meta_size).length
            = (podReadHeader (d.take HEADER_BYTES)).file_size
        · rw [if_pos hfs] at h
          cases hdm : dec ((d.drop HEADER_BYTES).take
              (podReadHeader (d.take HEADER_BYTES)).meta_size) with
          | none => rw [hdm] at h; exact POutcome.noConfusion h
          | some meta =>
            rw [hdm] at h
            cases POutcome.ok.inj h
            simp only [List.length_drop] at hfs hms ⊢
            constructor
            · omega
            · omega
        · rw [if_neg hfs] at h; exact POutcome.noConfusion h
      · rw [if_neg hms] at h; exact POutcome.noConfusion h
    · rw [parseContainer_short dec d (by omega)] at h; exact POutcome.noConfusion h
  · intro h16 hne
    rw [parseContainer_ge_header dec d h16]
    unfold parseAfterHeader
    by_cases hms : (podReadHeader (d.take HEADER_BYTES)).meta_size
        ≤ (d.drop HEADER_BYTES).length
    · rw [if_pos hms, if_pos (by rw [List.length_take]; omega),
        if_neg (by simp only [List.length_drop] at hms ⊢; omega)]
      exact ⟨_, rfl⟩
    · rw [if_neg hms]
      exact ⟨_, rfl⟩

/-- Witness for the amended C3 at a concrete 1-byte input. -/
theorem C3_corrupt_input_rejection_witness :
    parseContainer decMetaC [1] = .error "oopsy poopsy" :=
  (C3_corrupt_input_rejection decMetaC [1]).1 (by decide)

/-- Witness for C8 at a concrete long and a concrete short slice. -/
theorem C8_try_from_bytes_consumes_header_witness :
    FileHeader.try_from_bytes ((FileHeader.new 1 2).bytesOf ++ [9])
      = .ok (FileHeader.new 1 2, [9])
    ∧ FileHeader.try_from_bytes [1, 2, 3] = .error "oopsy poopsy" :=
  ⟨(C8_try_from_bytes_consumes_header ((FileHeader.new 1 2).bytesOf ++ [9])).2.2
      (FileHeader.new 1 2) [9] (by decide) (by decide),
   (C8_try_from_bytes_consumes_header [1, 2, 3]).2.1 (by decide)⟩

theorem extract_ge_header (dec : List Nat → Option FileMeta) (bytes : List Nat)
    (h16 : HEADER_BYTES ≤ bytes.length) :
    extract_header_and_meta dec bytes
      = extractAfterHeader dec (podReadHeader (bytes.take HEADER_BYTES))
          (bytes.drop HEADER_BYTES) := by
  unfold extract_header_and_meta FileHeader.try_from_bytes_exact
  rw [if_pos h16, if_pos (by rw [List.length_take]; omega)]

theorem extract_leading_bytes (dec : List Nat → Option FileMeta)
    (bytes : List Nat) (h : FileHeader) (m : FileMeta)
    (hok : extract_header_and_meta dec bytes = .ok (h, m)) (tail : List Nat) :
    extract_header_and_meta dec (bytes.take (HEADER_BYTES + h.meta_size) ++ tail)
      = .ok (h, m) := by
  by_cases h16 : HEADER_BYTES ≤ bytes.length
  case neg =>
    unfold extract_header_and_meta at hok
    rw [if_neg h16] at hok
    exact Except.noConfusion hok
  rw [extract_ge_header dec bytes h16] at hok
  unfold extractAfterHeader at hok
  by_cases hms : (podReadHeader (bytes.take HEADER_BYTES)).meta_size
      ≤ (bytes.drop HEADER_BYTES).length
  case neg =>
    rw [if_neg hms] at hok
    exact Except.noConfusion hok
  rw [if_pos hms] at hok
  cases hdm : dec ((bytes.drop HEADER_BYTES).take
      (podReadHeader (bytes.take HEADER_BYTES)).meta_size) with
  | none => rw [hdm] at hok; exact Except.noConfusion hok
  | some m₀ =>
    rw [hdm] at hok
    obtain ⟨hh, hmm⟩ := Prod.mk.injEq .. |>.mp (Except.ok.inj hok)
    subst hmm
    simp only [List.length_drop] at hms
    rw [hh] at hms hdm
    have hA : (bytes.take (HEADER_BYTES + h.meta_size)).length
        = HEADER_BYTES + h.meta_size := by
      rw [List.length_take]; omega
    have h16' : HEADER_BYTES
        ≤ (bytes.take (HEADER_BYTES + h.meta_size) ++ tail).length := by
      rw [List.length_append, hA]; omega
    rw [extract_ge_header dec _ h16']
    have htake : (bytes.take (HEADER_BYTES + h.meta_size) ++ tail).take HEADER_BYTES
        = bytes.take HEADER_BYTES := by
      rw [List.take_append_of_le_length (by rw [hA]; omega), List.take_take]
      congr 1
      omega
    have hdropA : (bytes.take (HEADER_BYTES + h.meta_size)).drop HEADER_BYTES
        = (bytes.drop HEADER_BYTES).take h.meta_size := by
      rw [List.drop_take]
      congr 1
      omega
    have hXlen : ((bytes.drop HEADER_BYTES).take h.meta_size).length
        = h.meta_size := by
      rw [List.length_take, List.length_drop]; omega
    have hdrop : (bytes.take (HEADER_BYTES + h.meta_size) ++ tail).drop HEADER_BYTES
        = (bytes.drop HEADER_BYTES).take h.meta_size ++ tail := by
      rw [List.drop_append_of_le_length (by rw [hA]; omega), hdropA]
    rw [htake, hdrop, hh]
    unfold extractAfterHeader
    rw [if_pos (by rw [List.length_append, hXlen]; omega)]
    rw [List.take_append_of_le_length (by rw [hXlen]), List.take_take, Nat.min_self, hdm]

theorem collect_backup_info_spec (dec : List Nat → Option FileMeta)
    (entries : List (List Nat × List Nat)) :
    ∀ infos, collect_backup_info dec entries = .ok infos →
      infos.length = entries.length
      ∧ ∀ i (hi : i < entries.length) (hi' : i < infos.length),
          (infos.get ⟨i, hi'⟩).backup_path = (entries.get ⟨i, hi⟩).1
          ∧ extract_header_and_meta dec (entries.get ⟨i, hi⟩).2
              = .ok ((infos.get ⟨i, hi'⟩).header, (infos.get ⟨i, hi'⟩).meta) := by
  induction entries with
  | nil =>
    intro infos h
    unfold collect_backup_info at h
    cases Except.ok.inj h
    exact ⟨rfl, fun i hi hi' => absurd hi (by simp)⟩
  | cons e entries ih =>
    intro infos h
    unfold collect_backup_info at h
    cases hx : extract_header_and_meta dec e.2 with
    | error err => rw [hx] at h; exact Except.noConfusion h
    | ok hm =>
      obtain ⟨h₀, m₀⟩ := hm
      rw [hx] at h
      cases hrec : collect_backup_info dec entries with
      | error err => rw [hrec] at h; exact Except.noConfusion h
      | ok infos' =>
        rw [hrec] at h
        cases Except.ok.inj h
        obtain ⟨ih1, ih2⟩ := ih infos' hrec
        refine ⟨by simp [ih1], ?_⟩
        intro i hi hi'
        cases i with
        | zero => exact ⟨rfl, hx⟩
        | succ j =>
          exact ih2 j (by simpa using hi) (by simpa using hi')

/-- C9: after BackupManager::new successfully scans the store directory, the
index holds exactly one entry per directory entry, each entry's header and
metadata were read from only the leading bytes of that same file (the payload
is never read), and each entry records that file's on-disk path. -/
theorem C9_store_index_complete (dec : List Nat → Option FileMeta)
    (entries : List (List Nat × List Nat)) (infos : List BackupInfo)
    (hok : collect_backup_info dec entries = .ok infos) :
    BackupManager.new dec entries = .ok ⟨infos⟩
    ∧ infos.length = entries.length
    ∧ (∀ i (hi : i < entries.length) (hi' : i < infos.length),
        (infos.get ⟨i, hi'⟩).backup_path = (entries.get ⟨i, hi⟩).1
        ∧ extract_header_and_meta dec (entries.get ⟨i, hi⟩).2
            = .ok ((infos.get ⟨i, hi'⟩).header, (infos.get ⟨i, hi'⟩).meta))
    ∧ (∀ bytes h m, extract_header_and_meta dec bytes = .ok (h, m) →
        ∀ tail, extract_header_and_meta dec
            (bytes.take (HEADER_BYTES + h.meta_size) ++ tail) = .ok (h, m)) := by
  obtain ⟨h1, h2⟩ := collect_backup_info_spec dec entries infos hok
  refine ⟨?_, h1, h2, fun bytes h m hx tail => extract_leading_bytes dec bytes h m hx tail⟩
  unfold BackupManager.new
  rw [hok]

/-- Witness for C9 at a concrete one-entry store directory. -/
theorem C9_store_index_complete_witness :
    BackupManager.new decMetaC [([3], sampleContainerBytes)] = .ok ⟨[sampleInfo]⟩
    ∧ [sampleInfo].length = [([3], sampleContainerBytes)].length :=
  ⟨(C9_store_index_complete decMetaC [([3], sampleContainerBytes)] [sampleInfo]
      (by rfl)).1,
   (C9_store_index_complete decMetaC [([3], sampleContainerBytes)] [sampleInfo]
      (by rfl)).2.1⟩

end Storage
